import Mathlib

/-!
Verification development for the astropix-python readout core.

The definitions below are shallow embeddings of the Python code in
`core/decode.py`, `core/asic.py` and `astropix.py`:

* bytes of a Python `bytearray` are modelled as `Nat` (elements are always
  `0 ≤ b < 256` by the `bytearray` type);
* Python arbitrary-precision `int` register words are modelled as `Nat`
  (all register words are non-negative), bitwise `x & ~m` becomes
  `Nat.ldiff x m`;
* Python functions that can raise an exception are modelled with `Option`,
  `none` standing for a raised exception (the doc comment of each definition
  says which exception);
* the `recconfig` dictionary with keys `col0 … col(n-1)` is modelled as a
  `List Nat`, position `c` holding the 38-bit word stored under key `col{c}`;
  a `.get(key, default)` access is a `getD`, a bare `d[key]` access or an
  item assignment on a missing key raises `KeyError` and is modelled by a
  bounds guard returning `none`.
-/

namespace AstroPix

/-! ### Per-byte bit reversal (`Decode.reverse_bitorder`) -/

/-- Reversal of the 8 bits of one byte, as performed by
`BitArray(uint=item, length=8); item_rev.reverse(); item_rev.uint` in
`Decode.reverse_bitorder`: bit `i` of the input becomes bit `7 - i` of the
output. -/
def byteRev (b : Nat) : Nat :=
  ((List.range 8).map (fun i => if b.testBit i then 2 ^ (7 - i) else 0)).sum

/-- `Decode.reverse_bitorder`: the Python loop overwrites every index of its
argument with the bit-reversed byte and returns the same object, which is
elementwise `List.map byteRev`. -/
def reverse_bitorder (data : List Nat) : List Nat :=
  data.map byteRev

/-! ### Frame extraction (`Decode.hits_from_readoutstream`) -/

/-- The frame appended to the hitlist for one consumed run of bytes:
`reverse_bitorder(readout[i:i+5])` when `reverse_bitorder` is requested,
the raw slice otherwise. -/
def frameOf (rev : Bool) (slice : List Nat) : List Nat :=
  if rev then reverse_bitorder slice else slice

/-- The `while i < length` scan of `Decode.hits_from_readoutstream`, acting on
the suffix `readout[i:]`: an idle byte (`idle`) or filler byte `0xff` advances
by one; any other byte consumes the slice `readout[i:i+5]` as one frame and
advances by 5.  Python slicing clamps at the end of the buffer, so when fewer
than 5 bytes remain the frame is the whole remaining suffix and the loop
terminates; the nested `match` spells out that clamping. -/
def hitsLoop (idle : Nat) (rev : Bool) : List Nat → List (List Nat)
  | [] => []
  | b :: rest =>
    if b = idle ∨ b = 0xff then
      hitsLoop idle rev rest
    else
      match rest with
      | b1 :: b2 :: b3 :: b4 :: rest4 =>
          frameOf rev [b, b1, b2, b3, b4] :: hitsLoop idle rev rest4
      | _ => [frameOf rev (b :: rest)]

/-- `Decode.hits_from_readoutstream readout reverse_bitorder`: the idle byte is
`0xbc` in bit-reversed mode and `0x3d` otherwise; `bytesperhit = 5`. -/
def hits_from_readoutstream (readout : List Nat) (rev : Bool := true) :
    List (List Nat) :=
  hitsLoop (if rev then 0xbc else 0x3d) rev readout

/-- The same scan with the caller's buffer object threaded explicitly, to
model Python aliasing: `readout[i:i+5]` on a `bytearray` allocates a fresh
`bytearray`, so `reverse_bitorder` mutates only that copy (`slice`), and no
statement of the loop ever writes into the caller's buffer `buf`, which is
returned unchanged next to the hitlist. -/
def hitsLoopSt (idle : Nat) (rev : Bool) :
    List Nat → List Nat → List (List Nat) × List Nat
  | [], buf => ([], buf)
  | b :: rest, buf =>
    if b = idle ∨ b = 0xff then
      hitsLoopSt idle rev rest buf
    else
      match rest with
      | b1 :: b2 :: b3 :: b4 :: rest4 =>
          let slice := [b, b1, b2, b3, b4]
          let frame := frameOf rev slice
          let res := hitsLoopSt idle rev rest4 buf
          (frame :: res.1, res.2)
      | _ => ([frameOf rev (b :: rest)], buf)

/-- `Decode.hits_from_readoutstream` with the caller's buffer tracked: first
component is the returned hitlist, second component is the caller's buffer
after the call. -/
def hits_from_readoutstream_st (readout : List Nat) (rev : Bool := true) :
    List (List Nat) × List Nat :=
  hitsLoopSt (if rev then 0xbc else 0x3d) rev readout readout

/-! ### Hit field decoding (`Decode.decode_astropix2_hits`) -/

/-- One decoded hit row, the fields appended by
`Decode.decode_astropix2_hits` for a 5-byte frame (`col` is stored as the
integer `1` or `0` by the code; `col = 1` means the location is a column). -/
structure DecodedHit where
  id : Nat
  payload : Nat
  location : Nat
  col : Nat
  timestamp : Nat
  tot_total : Nat
deriving DecidableEq

/-- Field extraction of `Decode.decode_astropix2_hits` for one frame:
`id = hit[0] >> 3`, `payload = hit[0] & 0b111`, `location = hit[1] & 0b111111`,
`col = 1 if (hit[1] >> 7) & 1 else 0`, `timestamp = hit[2]`,
`tot_total = ((hit[3] & 0b1111) << 8) + hit[4]`. -/
def decodeFrame (hit : List Nat) : DecodedHit :=
  { id := hit.getD 0 0 >>> 3
    payload := hit.getD 0 0 &&& 0b111
    location := hit.getD 1 0 &&& 0b111111
    col := if (hit.getD 1 0 >>> 7) &&& 1 ≠ 0 then 1 else 0
    timestamp := hit.getD 2 0
    tot_total := ((hit.getD 3 0 &&& 0b1111) <<< 8) + hit.getD 4 0 }

/-- `Decode.decode_astropix2_hits`: a row is appended only for frames whose
length equals `bytesperhit = 5` (`if len(hit) == self.bytesperhit`); frames of
any other length are skipped silently. -/
def decode_astropix2_hits (list_hits : List (List Nat)) : List DecodedHit :=
  list_hits.filterMap fun hit =>
    if hit.length = 5 then some (decodeFrame hit) else none

/-! ### Fixed-width encoding (`Asic.__int2nbit`) -/

/-- The big-endian bit sequence of an unsigned value at a given width,
`BitArray(uint=n, length=w)`: bit `w - 1 - i` of `n` at position `i`. -/
def natBitsBE (n w : Nat) : List Bool :=
  (List.range w).map fun i => n.testBit (w - 1 - i)

/-- `Asic.__int2nbit value nbits`: `BitArray(uint=value, length=nbits)`
raises `bitstring.CreationError` (a `ValueError`) when `value < 0`, when
`value ≥ 2^nbits`, or when `nbits = 0`; the `except ValueError` branch logs
an error and returns Python `None`, modelled as `none`. -/
def int2nbit (value : Int) (nbits : Nat) : Option (List Bool) :=
  if 0 < nbits ∧ 0 ≤ value ∧ value < 2 ^ nbits then
    some (natBitsBE value.toNat nbits)
  else
    none

/-! ### Configuration serialization (`Asic.gen_asic_vector`, single chip) -/

/-- The ASIC configuration map `asic_config` for a single chip: four groups in
fixed insertion order (`digitalconfig`, `biasconfig`, `dacconfig`,
`recconfig`), each an ordered list of entries `values = [nbits, value]`,
modelled as pairs `(nbits, value)`. -/
structure RegisterMap where
  digitalconfig : List (Nat × Int)
  biasconfig : List (Nat × Int)
  dacconfig : List (Nat × Int)
  recconfig : List (Nat × Int)

/-- The four groups of a `RegisterMap`, in the iteration order of
`for key in self.asic_config`. -/
def RegisterMap.groups (m : RegisterMap) : List (List (Nat × Int)) :=
  [m.digitalconfig, m.biasconfig, m.dacconfig, m.recconfig]

/-- The inner loops of `Asic.gen_asic_vector`:
`bitvector.append(self.__int2nbit(values[1], values[0]))` over a flattened
sequence of entries.  When `__int2nbit` has returned `None`,
`BitArray.append(None)` raises `TypeError`, modelled as `none`. -/
def entriesBits : List (Nat × Int) → Option (List Bool)
  | [] => some []
  | e :: rest =>
    match int2nbit e.2 e.1, entriesBits rest with
    | some b, some bs => some (b ++ bs)
    | _, _ => none

/-- `Asic.gen_asic_vector msbfirst` on a single-chip configuration
(`num_chips = 1` branch): concatenate every entry of every group, in group
order and entry order, each encoded at its declared width, then reverse the
whole vector when `msbfirst` is false. -/
def gen_asic_vector (m : RegisterMap) (msbfirst : Bool := false) :
    Option (List Bool) :=
  match entriesBits m.groups.flatten with
  | some bv => some (if msbfirst then bv else bv.reverse)
  | none => none

/-! ### Receiver-map mutations (`Asic.enable_pixel` and friends) -/

/-- The disabled-default receiver word
`0b001_11111_11111_11111_11111_11111_11111_11110`: bits 1–35 set (all rows
masked off), bits 0, 36 and 37 clear. -/
def default_word : Nat := 2 ^ 36 - 2

/-- The mutable state the receiver mutations act on: the configured geometry
and the `recconfig` sub-dictionary (entry `c` of the list is the word stored
under key `col{c}`). -/
structure AsicState where
  num_rows : Nat
  num_cols : Nat
  recconfig : List Nat
deriving DecidableEq

/-- `self.asic_config['recconfig'].get(f'col{col}', default)[1]`: the stored
word when the key exists (non-negative `col` within the list), the default
argument otherwise. -/
def recGet (s : AsicState) (col : Int) (dflt : Nat) : Nat :=
  if 0 ≤ col then s.recconfig.getD col.toNat dflt else dflt

/-- The item assignment `self.asic_config['recconfig'][f'col{col}'][1] = v`:
raises `KeyError` (`none`) when the key `col{col}` is absent, i.e. when `col`
is negative or beyond the stored columns. -/
def recSet (s : AsicState) (col : Int) (v : Nat) : Option AsicState :=
  if 0 ≤ col ∧ col.toNat < s.recconfig.length then
    some { s with recconfig := s.recconfig.set col.toNat v }
  else
    none

/-- `Asic.enable_pixel col row`: guarded by
`row < self.num_rows and col < self.num_cols` (a no-op otherwise — note that
negative indices pass this guard); the update clears bit `row + 1` via
`word & ~(2 << row)`.  A negative `row` makes `2 << row` raise
`ValueError: negative shift count` before the assignment (`none`). -/
def enable_pixel (s : AsicState) (col row : Int) : Option AsicState :=
  if row < (s.num_rows : Int) ∧ col < (s.num_cols : Int) then
    if row < 0 then none
    else recSet s col (Nat.ldiff (recGet s col default_word) (2 <<< row.toNat))
  else
    some s

/-- `Asic.disable_pixel col row`: same guard as `enable_pixel`; the update
sets bit `row + 1` via `word | (2 << row)`; a negative `row` raises. -/
def disable_pixel (s : AsicState) (col row : Int) : Option AsicState :=
  if row < (s.num_rows : Int) ∧ col < (s.num_cols : Int) then
    if row < 0 then none
    else recSet s col ((recGet s col default_word) ||| (2 <<< row.toNat))
  else
    some s

/-- `Asic.enable_inj_row row`: guarded by `row < self.num_rows` only; sets
bit 0 of the word stored under key `col{row}` (the row index addresses the
per-column table).  A negative `row` passes the guard and the assignment
raises `KeyError` on the absent key `col{row}`. -/
def enable_inj_row (s : AsicState) (row : Int) : Option AsicState :=
  if row < (s.num_rows : Int) then
    recSet s row ((recGet s row default_word) ||| 1)
  else
    some s

/-- `Asic.enable_inj_col col`: guarded by `col < self.num_cols` only; sets
bit 36 (`0b010_00000_00000_00000_00000_00000_00000_00000`).  A negative `col`
passes the guard and the assignment raises `KeyError`. -/
def enable_inj_col (s : AsicState) (col : Int) : Option AsicState :=
  if col < (s.num_cols : Int) then
    recSet s col ((recGet s col default_word) ||| 2 ^ 36)
  else
    some s

/-- `Asic.disable_inj_row row`: clears bit 0 via
`word & 0b111_11111_11111_11111_11111_11111_11111_11110`. -/
def disable_inj_row (s : AsicState) (row : Int) : Option AsicState :=
  if row < (s.num_rows : Int) then
    recSet s row ((recGet s row default_word) &&& (2 ^ 38 - 2))
  else
    some s

/-- `Asic.disable_inj_col col`: clears bit 36 via
`word & 0b101_11111_11111_11111_11111_11111_11111_11111`. -/
def disable_inj_col (s : AsicState) (col : Int) : Option AsicState :=
  if col < (s.num_cols : Int) then
    recSet s col ((recGet s col default_word) &&& (2 ^ 38 - 1 - 2 ^ 36))
  else
    some s

/-- The `for i in range(self.num_cols)` loop of `Asic.enable_ampout_col`: each
iteration executes
`d[f'col{col}'][1] = d[f'col{col}'][1] & 0b011_11111_11111_11111_11111_11111_11111_11111`
on the *same* entry `col{col}` — the loop variable `i` is never used — so the
word under key `col{col}` is repeatedly masked with `2^37 - 1`. -/
def ampoutLoop : Nat → Nat → Nat
  | w, 0 => w
  | w, n + 1 => ampoutLoop (w &&& (2 ^ 37 - 1)) n

/-- `Asic.enable_ampout_col col`: runs the clear loop above (which touches
only entry `col{col}`), then sets bit 37 of entry `col{col}` via
`word | 0b100_00000_00000_00000_00000_00000_00000_00000`.  Both statements
read `d[f'col{col}'][1]` directly (no `.get` default), so an absent key —
including any negative `col` — raises `KeyError` (`none`).  There is no
bounds check on `col`. -/
def enable_ampout_col (s : AsicState) (col : Int) : Option AsicState :=
  if 0 ≤ col ∧ col.toNat < s.recconfig.length then
    let w := s.recconfig.getD col.toNat 0
    let w1 := ampoutLoop w s.num_cols
    some { s with recconfig := s.recconfig.set col.toNat (w1 ||| 2 ^ 37) }
  else
    none

/-- `Asic.get_pixel col row`: if `row < self.num_rows`, evaluates
`self.asic_config['recconfig'].get(f'col{col}')[1] & (1 << (row+1))` and
returns `False` when the bit is set, `True` when it is clear; otherwise logs
an error and returns Python `None`.  The bare `.get` has no default, so an
absent key gives `None[1]`, a `TypeError`; `row + 1 < 0` makes the shift
raise.  Outer `none` = raised exception, `some none` = returned `None`. -/
def get_pixel (s : AsicState) (col row : Int) : Option (Option Bool) :=
  if row < (s.num_rows : Int) then
    if 0 ≤ col ∧ col.toNat < s.recconfig.length then
      if row + 1 < 0 then none
      else
        some (some ((s.recconfig.getD col.toNat 0) &&& (1 <<< (row + 1).toNat) = 0))
    else none
  else
    some none

/-! ### Helper lemmas -/

theorem hitsLoop_skip {idle : Nat} {rev : Bool} {b : Nat} {rest : List Nat}
    (h : b = idle ∨ b = 0xff) :
    hitsLoop idle rev (b :: rest) = hitsLoop idle rev rest := by
  rw [hitsLoop.eq_def]
  rcases h with h | h <;> subst h <;> simp

theorem hitsLoop_hit {idle : Nat} {rev : Bool} {b b1 b2 b3 b4 : Nat}
    {rest : List Nat} (h1 : b ≠ idle) (h2 : b ≠ 0xff) :
    hitsLoop idle rev (b :: b1 :: b2 :: b3 :: b4 :: rest) =
      frameOf rev [b, b1, b2, b3, b4] :: hitsLoop idle rev rest := by
  rw [hitsLoop.eq_def]
  simp [h1, h2]

theorem hitsLoop_tail3 {idle : Nat} {rev : Bool} {a x y : Nat}
    (h1 : a ≠ idle) (h2 : a ≠ 0xff) :
    hitsLoop idle rev [a, x, y] = [frameOf rev [a, x, y]] := by
  rw [hitsLoop.eq_def]
  simp [h1, h2]

theorem land_two_pow_eq_zero_iff (x k : Nat) :
    x &&& 2 ^ k = 0 ↔ x.testBit k = false := by
  rw [Nat.and_two_pow]
  rcases h : x.testBit k <;> simp [h]

/-- `2 << row` is the single bit at position `row + 1`. -/
theorem two_shiftLeft (r : Nat) : 2 <<< r = 2 ^ (r + 1) := by
  rw [Nat.shiftLeft_eq, pow_succ, Nat.mul_comm]

/-- `1 << k` is the single bit at position `k`. -/
theorem one_shiftLeft (k : Nat) : 1 <<< k = 2 ^ k := by
  rw [Nat.shiftLeft_eq, Nat.one_mul]

theorem ldiff_idem (w m : Nat) : Nat.ldiff (Nat.ldiff w m) m = Nat.ldiff w m := by
  apply Nat.eq_of_testBit_eq
  intro k
  simp [Nat.testBit_ldiff, Bool.and_assoc]

theorem ldiff_land_self (w m : Nat) : Nat.ldiff w m &&& m = 0 := by
  apply Nat.eq_of_testBit_eq
  intro k
  simp [Nat.testBit_land, Nat.testBit_ldiff, Nat.zero_testBit, Bool.and_assoc]

/-! ### Claims -/

/-- C5: decoding the 5-byte post-reversal frame `[0x08, 0x81, 0x05, 0x02, 0x30]`
with `Decode.decode_astropix2_hits` yields `chip_id = 1`, `payload = 0`,
`location = 1`, `col = 1` (i.e. `is_column = True`), `timestamp = 5`,
`tot_total = 560`. -/
theorem claim_C5_decoder_field_example :
    decode_astropix2_hits [[0x08, 0x81, 0x05, 0x02, 0x30]] =
      [{ id := 1, payload := 0, location := 1, col := 1,
         timestamp := 5, tot_total := 560 }] := by
  decide

/-- C3 counterexample: `__int2nbit(2^4, 4)` does not surface a `RangeError`
to the caller — the `except ValueError` branch swallows the out-of-range
failure and the function returns Python `None` (here `none`), so the claim
that the failure "is never silently swallowed or replaced with a default
result" is false at width 4 and value 16. -/
theorem claim_C3_counterexample : int2nbit 16 4 = none := by decide

/-- C3 amended: for every width `w ≥ 1` and every integer `value` with
`value < 0` or `value ≥ 2^w`, the `BitArray` construction inside
`__int2nbit` fails, the `except ValueError` branch catches the failure,
logs the allowed range, and the function returns `None` — the value is never
silently clamped to a representable one, but the error is converted into a
`None` result instead of being raised to the caller. -/
theorem claim_C3_range_swallowed_to_none (w : Nat) (v : Int)
    (_hw : 1 ≤ w) (hv : v < 0 ∨ (2 : Int) ^ w ≤ v) :
    int2nbit v w = none := by
  unfold int2nbit
  rw [if_neg]
  rintro ⟨-, h0, hlt⟩
  rcases hv with h | h
  · exact absurd h0 (not_le.mpr h)
  · exact absurd hlt (not_lt.mpr h)

/-- C3 witness: `__int2nbit(-1, 8)` returns `None`. -/
theorem claim_C3_witness : int2nbit (-1) 8 = none :=
  claim_C3_range_swallowed_to_none 8 (-1) (by decide) (Or.inl (by decide))

/-- C1: `Asic.enable_ampout_col` does *not* establish analog-select
exclusivity.  Starting from a receiver map whose two column entries are
38-bit words (`default_word + 2^37` for column 0 — bit 37 set — and
`default_word` for column 1), `enable_ampout_col 1` returns normally but
leaves bit 37 of column 0 set while also setting bit 37 of column 1: two
entries end with bit 37 set, because the clear loop masks `col{col}` itself
on every iteration (the loop variable `i` is unused) instead of `col{i}`,
contradicting the function's own docstring "disable other cols". -/
theorem claim_C1_ampout_not_exclusive :
    default_word + 2 ^ 37 < 2 ^ 38 ∧ default_word < 2 ^ 38 ∧
    ∃ s1, enable_ampout_col ⟨35, 2, [default_word + 2 ^ 37, default_word]⟩ 1 =
        some s1 ∧
      (s1.recconfig.getD 0 0).testBit 37 = true ∧
      (s1.recconfig.getD 1 0).testBit 37 = true := by
  refine ⟨by decide, by decide,
    ⟨35, 2, [default_word + 2 ^ 37, default_word ||| 2 ^ 37]⟩, ?_, ?_, ?_⟩ <;>
    decide

/-- C8 counterexample: `enable_pixel(col = 2, row = -1)` on the default
35×35 geometry is *not* a warned no-op: the negative row passes the
`row < self.num_rows` guard and `2 << -1` raises
`ValueError: negative shift count` (modelled by `none`), so the mutation
raises a fatal error instead of leaving the map unchanged. -/
theorem claim_C8_counterexample :
    enable_pixel ⟨35, 35, List.replicate 35 default_word⟩ 2 (-1) = none := by
  decide

theorem hits_from_readoutstream_true (l : List Nat) :
    hits_from_readoutstream l true = hitsLoop 0xbc true l := rfl

/-- C2 counterexample: on the buffer `BC f1..f5 a1 a2 a3` (one idle byte, one
full frame, then a 3-byte non-idle tail), `hits_from_readoutstream` raises
nothing — there is no `TruncatedFrameError` anywhere in the code — and the
partial tail is *not* discarded: the clamped slice `readout[i:i+5]` of the
last 3 bytes is appended to the hitlist as a 3-byte frame. -/
theorem claim_C2_counterexample :
    hits_from_readoutstream [0xbc, 1, 2, 3, 4, 5, 9, 9, 9] true =
      [reverse_bitorder [1, 2, 3, 4, 5], reverse_bitorder [9, 9, 9]] := by
  decide

/-- C2 amended: a buffer ending with 3 non-idle bytes after the last full
frame raises no error: the tail is consumed as one short frame (Python
slicing clamps at the end of the buffer) and appended to the hitlist, and
`decode_astropix2_hits` produces no `DecodedHit` from it because it skips
every frame whose length is not 5. -/
theorem claim_C2_truncated_tail (f1 f2 f3 f4 f5 a1 a2 a3 : Nat)
    (hf1 : f1 ≠ 0xbc) (hf1' : f1 ≠ 0xff)
    (ha1 : a1 ≠ 0xbc) (ha1' : a1 ≠ 0xff) :
    hits_from_readoutstream [0xbc, f1, f2, f3, f4, f5, a1, a2, a3] true =
      [reverse_bitorder [f1, f2, f3, f4, f5], reverse_bitorder [a1, a2, a3]] ∧
    decode_astropix2_hits
        (hits_from_readoutstream [0xbc, f1, f2, f3, f4, f5, a1, a2, a3] true) =
      [decodeFrame (reverse_bitorder [f1, f2, f3, f4, f5])] := by
  have hx : hits_from_readoutstream [0xbc, f1, f2, f3, f4, f5, a1, a2, a3] true =
      [reverse_bitorder [f1, f2, f3, f4, f5], reverse_bitorder [a1, a2, a3]] := by
    rw [hits_from_readoutstream_true, hitsLoop_skip (Or.inl rfl),
      hitsLoop_hit hf1 hf1', hitsLoop_tail3 ha1 ha1']
    simp [frameOf]
  refine ⟨hx, ?_⟩
  rw [hx]
  simp [decode_astropix2_hits, reverse_bitorder]

/-- C2 witness: at `f1..f5 = 7` and tail `3 3 3`, the buffer yields the full
frame plus a 3-byte frame and exactly one decoded hit. -/
theorem claim_C2_witness :
    hits_from_readoutstream [0xbc, 7, 7, 7, 7, 7, 3, 3, 3] true =
      [reverse_bitorder [7, 7, 7, 7, 7], reverse_bitorder [3, 3, 3]] ∧
    decode_astropix2_hits
        (hits_from_readoutstream [0xbc, 7, 7, 7, 7, 7, 3, 3, 3] true) =
      [decodeFrame (reverse_bitorder [7, 7, 7, 7, 7])] :=
  claim_C2_truncated_tail 7 7 7 7 7 3 3 3 (by decide) (by decide)
    (by decide) (by decide)

/-- C4: for any 10 hit bytes, none equal to the idle byte `0xBC` or the
filler byte `0xFF`, extracting frames in bit-reversed mode from the buffer
`BC BC b1..b5 FF b6..b10 BC` yields exactly the 2 frames `b1..b5` and
`b6..b10` in encounter order, each byte bit-reversed (`byteRev`); and
`byteRev` really swaps bit `j` with bit `7 - j` on every byte. -/
theorem claim_C4_frame_extraction
    (b1 b2 b3 b4 b5 b6 b7 b8 b9 b10 : Nat)
    (h : ∀ x ∈ [b1, b2, b3, b4, b5, b6, b7, b8, b9, b10],
        x < 256 ∧ x ≠ 0xbc ∧ x ≠ 0xff) :
    hits_from_readoutstream
        [0xbc, 0xbc, b1, b2, b3, b4, b5, 0xff, b6, b7, b8, b9, b10, 0xbc]
        true =
      [[byteRev b1, byteRev b2, byteRev b3, byteRev b4, byteRev b5],
       [byteRev b6, byteRev b7, byteRev b8, byteRev b9, byteRev b10]] ∧
    (∀ x < 256, ∀ j < 8, (byteRev x).testBit j = x.testBit (7 - j)) := by
  obtain ⟨-, hb1, hb1'⟩ := h b1 (by simp)
  obtain ⟨-, hb6, hb6'⟩ := h b6 (by simp)
  constructor
  · rw [hits_from_readoutstream_true, hitsLoop_skip (Or.inl rfl),
      hitsLoop_skip (Or.inl rfl), hitsLoop_hit hb1 hb1',
      hitsLoop_skip (Or.inr rfl), hitsLoop_hit hb6 hb6',
      hitsLoop_skip (Or.inl rfl)]
    simp [hitsLoop, frameOf, reverse_bitorder]
  · set_option maxRecDepth 4096 in decide

/-- C4 witness: the theorem at hit bytes `1..10`. -/
theorem claim_C4_witness :
    hits_from_readoutstream
        [0xbc, 0xbc, 1, 2, 3, 4, 5, 0xff, 6, 7, 8, 9, 10, 0xbc] true =
      [[byteRev 1, byteRev 2, byteRev 3, byteRev 4, byteRev 5],
       [byteRev 6, byteRev 7, byteRev 8, byteRev 9, byteRev 10]] ∧
    (∀ x < 256, ∀ j < 8, (byteRev x).testBit j = x.testBit (7 - j)) :=
  claim_C4_frame_extraction 1 2 3 4 5 6 7 8 9 10 (by decide)

/-- C8 amended: a mutation whose (non-negative) row or column index is at or
beyond the configured geometry leaves the state unchanged and raises nothing
— but no warning is logged anywhere in these functions, the skip is silent.
Negative indices are *not* treated as out of bounds: they pass the
`row < num_rows` / `col < num_cols` guards, after which a negative row makes
`2 << row` raise `ValueError` in `enable_pixel`/`disable_pixel`, and a
negative index makes the `recconfig[f'col{...}']` item assignment raise
`KeyError` in the injection switches. -/
theorem claim_C8_out_of_bounds (s : AsicState) (col row : Int) :
    ((s.num_rows : Int) ≤ row ∨ (s.num_cols : Int) ≤ col →
      enable_pixel s col row = some s ∧ disable_pixel s col row = some s) ∧
    ((s.num_rows : Int) ≤ row →
      enable_inj_row s row = some s ∧ disable_inj_row s row = some s) ∧
    ((s.num_cols : Int) ≤ col →
      enable_inj_col s col = some s ∧ disable_inj_col s col = some s) ∧
    (row < 0 → col < (s.num_cols : Int) →
      enable_pixel s col row = none ∧ disable_pixel s col row = none) ∧
    (row < 0 → enable_inj_row s row = none ∧ disable_inj_row s row = none) ∧
    (col < 0 → enable_inj_col s col = none ∧ disable_inj_col s col = none) := by
  refine ⟨fun h => ?_, fun h => ?_, fun h => ?_, fun h h2 => ?_,
    fun h => ?_, fun h => ?_⟩
  · have g : ¬(row < (s.num_rows : Int) ∧ col < (s.num_cols : Int)) := by omega
    simp [enable_pixel, disable_pixel, g]
  · have g : ¬(row < (s.num_rows : Int)) := by omega
    simp [enable_inj_row, disable_inj_row, g]
  · have g : ¬(col < (s.num_cols : Int)) := by omega
    simp [enable_inj_col, disable_inj_col, g]
  · have g : row < (s.num_rows : Int) ∧ col < (s.num_cols : Int) :=
      ⟨by omega, h2⟩
    simp [enable_pixel, disable_pixel, g, h]
  · have g : row < (s.num_rows : Int) := by omega
    have g2 : ¬(0 ≤ row) := by omega
    simp [enable_inj_row, disable_inj_row, recSet, g, g2]
  · have g : col < (s.num_cols : Int) := by omega
    have g2 : ¬(0 ≤ col) := by omega
    simp [enable_inj_col, disable_inj_col, recSet, g, g2]

/-- C8 witness: on the 35×35 geometry, `enable_pixel(0, 40)` is an unchanged
no-op while `enable_inj_row(-3)` raises. -/
theorem claim_C8_witness :
    enable_pixel ⟨35, 35, []⟩ 0 40 = some ⟨35, 35, []⟩ ∧
    enable_inj_row ⟨35, 35, []⟩ (-3) = none :=
  ⟨((claim_C8_out_of_bounds ⟨35, 35, []⟩ 0 40).1 (Or.inl (by decide))).1,
   ((claim_C8_out_of_bounds ⟨35, 35, []⟩ 0 (-3)).2.2.2.2.1 (by decide)).1⟩

theorem entriesBits_sound (entries : List (Nat × Int))
    (h : ∀ e ∈ entries, 1 ≤ e.1 ∧ 0 ≤ e.2 ∧ e.2 < (2 : Int) ^ e.1) :
    ∃ bv, entriesBits entries = some bv ∧
      bv.length = (entries.map Prod.fst).sum := by
  induction entries with
  | nil => exact ⟨[], rfl, rfl⟩
  | cons e rest ih =>
    obtain ⟨h1, h2, h3⟩ := h e (List.mem_cons_self e rest)
    obtain ⟨bs, hbs, hlen⟩ := ih fun x hx => h x (List.mem_cons_of_mem e hx)
    have he : int2nbit e.2 e.1 = some (natBitsBE e.2.toNat e.1) := by
      unfold int2nbit
      rw [if_pos ⟨h1, h2, h3⟩]
    refine ⟨natBitsBE e.2.toNat e.1 ++ bs, ?_, ?_⟩
    · simp [entriesBits, he, hbs]
    · simp [natBitsBE, hlen]

/-- C6: for every single-chip configuration whose entries all fit their
declared bit widths, `gen_asic_vector` succeeds and the serialized bitstream
— with or without the whole-vector reversal (`msbfirst`) — has length equal
to the sum of the declared bit widths of all entries across the four groups
(digital, bias, dac, receiver). -/
theorem claim_C6_serializer_length (m : RegisterMap) (msbfirst : Bool)
    (h : ∀ g ∈ m.groups, ∀ e ∈ g, 1 ≤ e.1 ∧ 0 ≤ e.2 ∧ e.2 < (2 : Int) ^ e.1) :
    ∃ bv, gen_asic_vector m msbfirst = some bv ∧
      bv.length = (m.groups.map fun g => (g.map Prod.fst).sum).sum := by
  have hall : ∀ e ∈ m.groups.flatten,
      1 ≤ e.1 ∧ 0 ≤ e.2 ∧ e.2 < (2 : Int) ^ e.1 := by
    intro e he
    rw [List.mem_flatten] at he
    obtain ⟨g, hg, heg⟩ := he
    exact h g hg e heg
  obtain ⟨bv, hbv, hlen⟩ := entriesBits_sound _ hall
  have hsum : (m.groups.flatten.map Prod.fst).sum =
      (m.groups.map fun g => (g.map Prod.fst).sum).sum := by
    rw [List.map_flatten, List.sum_flatten, List.map_map]
    rfl
  unfold gen_asic_vector
  rw [hbv]
  refine ⟨if msbfirst then bv else bv.reverse, rfl, ?_⟩
  cases msbfirst
  · simpa using hlen.trans hsum
  · simpa using hlen.trans hsum

/-- C6 witness: a concrete 4-group map with widths 3, 2, 4 and 38. -/
theorem claim_C6_witness :
    ∃ bv, gen_asic_vector ⟨[(3, 5)], [(2, 1)], [(4, 0)], [(38, 100)]⟩ false =
        some bv ∧
      bv.length = ((RegisterMap.groups
        ⟨[(3, 5)], [(2, 1)], [(4, 0)], [(38, 100)]⟩).map
          fun g => (g.map Prod.fst).sum).sum :=
  claim_C6_serializer_length _ false (by decide)

theorem getD_set_self {l : List Nat} {i : Nat} (h : i < l.length) (a d : Nat) :
    (l.set i a).getD i d = a := by
  simp [List.getD_eq_getElem?_getD, List.getElem?_set_self, h]

/-- Closed form of `Asic.enable_pixel` at in-bounds natural indices: the word
under key `col{c}` gets bit `r + 1` cleared. -/
theorem enable_pixel_nat (s : AsicState) (c r : Nat)
    (hr : r < s.num_rows) (hc : c < s.num_cols)
    (hlen : c < s.recconfig.length) :
    enable_pixel s c r = some { s with recconfig := s.recconfig.set c (Nat.ldiff (s.recconfig.getD c default_word) (2 ^ (r + 1))) } := by
  have h1 : (r : Int) < (s.num_rows : Int) := by exact_mod_cast hr
  have h2 : (c : Int) < (s.num_cols : Int) := by exact_mod_cast hc
  have h3 : ¬((r : Int) < 0) := by omega
  have h4 : (0 : Int) ≤ (c : Int) := by omega
  simp [enable_pixel, recSet, recGet, h1, h2, h3, h4, Int.toNat_natCast,
    hlen, two_shiftLeft]

/-- Closed form of `Asic.disable_pixel` at in-bounds natural indices: the
word under key `col{c}` gets bit `r + 1` set. -/
theorem disable_pixel_nat (s : AsicState) (c r : Nat)
    (hr : r < s.num_rows) (hc : c < s.num_cols)
    (hlen : c < s.recconfig.length) :
    disable_pixel s c r = some { s with recconfig := s.recconfig.set c ((s.recconfig.getD c default_word) ||| 2 ^ (r + 1)) } := by
  have h1 : (r : Int) < (s.num_rows : Int) := by exact_mod_cast hr
  have h2 : (c : Int) < (s.num_cols : Int) := by exact_mod_cast hc
  have h3 : ¬((r : Int) < 0) := by omega
  have h4 : (0 : Int) ≤ (c : Int) := by omega
  simp [disable_pixel, recSet, recGet, h1, h2, h3, h4, Int.toNat_natCast,
    hlen, two_shiftLeft]

/-- C7: for any receiver-map state with an entry for the in-bounds column
`c`, enabling pixel `(c, r)` twice returns exactly the state of the single
call (idempotence), and disabling the pixel afterwards leaves bit `r + 1`
of the column word set again — its disabled-default state. -/
theorem claim_C7_pixel_mask_idempotence (s : AsicState) (c r : Nat)
    (hr : r < s.num_rows) (hc : c < s.num_cols)
    (hlen : c < s.recconfig.length) :
    ∃ s1, enable_pixel s c r = some s1 ∧
      enable_pixel s1 c r = some s1 ∧
      ∃ s2, disable_pixel s1 c r = some s2 ∧
        (s2.recconfig.getD c 0).testBit (r + 1) = true := by
  refine ⟨{ s with recconfig := s.recconfig.set c (Nat.ldiff (s.recconfig.getD c default_word) (2 ^ (r + 1))) },
    enable_pixel_nat s c r hr hc hlen, ?_, ?_⟩
  · rw [enable_pixel_nat { s with recconfig := s.recconfig.set c (Nat.ldiff (s.recconfig.getD c default_word) (2 ^ (r + 1))) }
      c r hr hc (by simpa using hlen)]
    simp only [getD_set_self hlen, ldiff_idem, List.set_set]
  · refine ⟨_, disable_pixel_nat { s with recconfig := s.recconfig.set c (Nat.ldiff (s.recconfig.getD c default_word) (2 ^ (r + 1))) }
      c r hr hc (by simpa using hlen), ?_⟩
    simp only [getD_set_self hlen, getD_set_self (show c < (s.recconfig.set c (Nat.ldiff (s.recconfig.getD c default_word) (2 ^ (r + 1)))).length by simpa using hlen)]
    simp [Nat.testBit_lor, Nat.testBit_two_pow_self]

/-- C7 witness: a 2×2 state with both column words at the default. -/
theorem claim_C7_witness :
    ∃ s1, enable_pixel ⟨2, 2, [default_word, default_word]⟩ 0 1 = some s1 ∧
      enable_pixel s1 0 1 = some s1 ∧
      ∃ s2, disable_pixel s1 0 1 = some s2 ∧
        (s2.recconfig.getD 0 0).testBit 2 = true :=
  claim_C7_pixel_mask_idempotence ⟨2, 2, [default_word, default_word]⟩ 0 1
    (by decide) (by decide) (by decide)

/-- Closed form of `Asic.get_pixel` at in-bounds natural indices: it returns
`True` exactly when bit `r + 1` of the column word is clear. -/
theorem get_pixel_nat (s : AsicState) (c r : Nat)
    (hr : r < s.num_rows) (hlen : c < s.recconfig.length) :
    get_pixel s c r =
      some (some (decide ((s.recconfig.getD c 0) &&& 2 ^ (r + 1) = 0))) := by
  have h1 : (r : Int) < (s.num_rows : Int) := by exact_mod_cast hr
  have h3 : ¬((r : Int) + 1 < 0) := by omega
  have h4 : (0 : Int) ≤ (c : Int) := by omega
  have h5 : ((r : Int) + 1).toNat = r + 1 := by omega
  simp [get_pixel, h1, h3, h4, h5, Int.toNat_natCast, hlen, one_shiftLeft]

/-- C10: immediately after `enable_pixel(c, r)` on an in-bounds pixel,
`get_pixel(c, r)` returns `True`, and immediately after `disable_pixel(c, r)`
it returns `False`: the query reads exactly the mask bit `r + 1` the
mutations write, `True` meaning the bit is clear. -/
theorem claim_C10_get_pixel_reads_mask (s : AsicState) (c r : Nat)
    (hr : r < s.num_rows) (hc : c < s.num_cols)
    (hlen : c < s.recconfig.length) :
    (∃ s1, enable_pixel s c r = some s1 ∧
      get_pixel s1 c r = some (some true)) ∧
    (∃ s2, disable_pixel s c r = some s2 ∧
      get_pixel s2 c r = some (some false)) := by
  constructor
  · refine ⟨_, enable_pixel_nat s c r hr hc hlen, ?_⟩
    rw [get_pixel_nat { s with recconfig := s.recconfig.set c (Nat.ldiff (s.recconfig.getD c default_word) (2 ^ (r + 1))) }
      c r hr (by simpa using hlen)]
    simp only [getD_set_self hlen]
    simp [ldiff_land_self]
  · refine ⟨_, disable_pixel_nat s c r hr hc hlen, ?_⟩
    rw [get_pixel_nat { s with recconfig := s.recconfig.set c ((s.recconfig.getD c default_word) ||| 2 ^ (r + 1)) }
      c r hr (by simpa using hlen)]
    simp only [getD_set_self hlen]
    have : ((s.recconfig.getD c default_word ||| 2 ^ (r + 1)) &&&
        2 ^ (r + 1)) ≠ 0 := by
      intro h0
      have := (land_two_pow_eq_zero_iff _ (r + 1)).mp h0
      simp [Nat.testBit_lor, Nat.testBit_two_pow_self] at this
    simpa [List.getD_eq_getElem?_getD] using this

/-- C10 witness: the 2×2 default state at pixel `(0, 1)`. -/
theorem claim_C10_witness :
    (∃ s1, enable_pixel ⟨2, 2, [default_word, default_word]⟩ 0 1 = some s1 ∧
      get_pixel s1 0 1 = some (some true)) ∧
    (∃ s2, disable_pixel ⟨2, 2, [default_word, default_word]⟩ 0 1 = some s2 ∧
      get_pixel s2 0 1 = some (some false)) :=
  claim_C10_get_pixel_reads_mask ⟨2, 2, [default_word, default_word]⟩ 0 1
    (by decide) (by decide) (by decide)

theorem hitsLoopSt_skip {idle : Nat} {rev : Bool} {b : Nat}
    {rest buf : List Nat} (h : b = idle ∨ b = 0xff) :
    hitsLoopSt idle rev (b :: rest) buf = hitsLoopSt idle rev rest buf := by
  rw [hitsLoopSt.eq_def]
  rcases h with h | h <;> subst h <;> simp

theorem hitsLoopSt_hit {idle : Nat} {rev : Bool} {b b1 b2 b3 b4 : Nat}
    {rest buf : List Nat} (h1 : b ≠ idle) (h2 : b ≠ 0xff) :
    hitsLoopSt idle rev (b :: b1 :: b2 :: b3 :: b4 :: rest) buf =
      (frameOf rev [b, b1, b2, b3, b4] :: (hitsLoopSt idle rev rest buf).1,
       (hitsLoopSt idle rev rest buf).2) := by
  rw [hitsLoopSt.eq_def]
  simp [h1, h2]

theorem hitsLoopSt_eq_aux (idle : Nat) (rev : Bool) :
    ∀ n l buf, List.length l ≤ n →
      hitsLoopSt idle rev l buf = (hitsLoop idle rev l, buf) := by
  intro n
  induction n with
  | zero =>
    intro l buf h
    have hl : l = [] := List.eq_nil_of_length_eq_zero (Nat.le_zero.mp h)
    subst hl
    simp [hitsLoopSt, hitsLoop]
  | succ n ih =>
    intro l buf h
    match l with
    | [] => simp [hitsLoopSt, hitsLoop]
    | b :: rest =>
      by_cases hb : b = idle ∨ b = 0xff
      · rw [hitsLoopSt_skip hb, hitsLoop_skip hb]
        exact ih rest buf (by simp [List.length_cons] at h; omega)
      · push_neg at hb
        obtain ⟨hb1, hb2⟩ := hb
        rcases rest with _ | ⟨x1, _ | ⟨x2, _ | ⟨x3, _ | ⟨x4, rest4⟩⟩⟩⟩
        · rw [hitsLoopSt.eq_def, hitsLoop.eq_def]
          simp [hb1, hb2]
        · rw [hitsLoopSt.eq_def, hitsLoop.eq_def]
          simp [hb1, hb2]
        · rw [hitsLoopSt.eq_def, hitsLoop.eq_def]
          simp [hb1, hb2]
        · rw [hitsLoopSt.eq_def, hitsLoop.eq_def]
          simp [hb1, hb2]
        · rw [hitsLoopSt_hit hb1 hb2, hitsLoop_hit hb1 hb2,
            ih rest4 buf (by simp [List.length_cons] at h; omega)]

theorem hitsLoop_map_rev_aux (idle : Nat) :
    ∀ n l, List.length l ≤ n →
      hitsLoop idle true l = (hitsLoop idle false l).map reverse_bitorder := by
  intro n
  induction n with
  | zero =>
    intro l h
    have hl : l = [] := List.eq_nil_of_length_eq_zero (Nat.le_zero.mp h)
    subst hl
    simp [hitsLoop]
  | succ n ih =>
    intro l h
    match l with
    | [] => simp [hitsLoop]
    | b :: rest =>
      by_cases hb : b = idle ∨ b = 0xff
      · rw [hitsLoop_skip hb, hitsLoop_skip hb]
        exact ih rest (by simp [List.length_cons] at h; omega)
      · push_neg at hb
        obtain ⟨hb1, hb2⟩ := hb
        rcases rest with _ | ⟨x1, _ | ⟨x2, _ | ⟨x3, _ | ⟨x4, rest4⟩⟩⟩⟩
        · rw [hitsLoop.eq_def, hitsLoop.eq_def]
          simp [hb1, hb2, frameOf]
        · rw [hitsLoop.eq_def, hitsLoop.eq_def]
          simp [hb1, hb2, frameOf]
        · rw [hitsLoop.eq_def, hitsLoop.eq_def]
          simp [hb1, hb2, frameOf]
        · rw [hitsLoop.eq_def, hitsLoop.eq_def]
          simp [hb1, hb2, frameOf]
        · rw [hitsLoop_hit hb1 hb2, hitsLoop_hit hb1 hb2,
            ih rest4 (by simp [List.length_cons] at h; omega)]
          simp [frameOf]

/-- C9: `hits_from_readoutstream` does not modify the caller's buffer, and
the per-byte bit reversal is applied only to the fresh slice copies: the
state-threaded run returns the caller's buffer unchanged as its second
component, and the returned frames are exactly the raw (unreversed) consumed
slices of the input, each mapped through `reverse_bitorder`. -/
theorem claim_C9_input_buffer_untouched (readout : List Nat) :
    hits_from_readoutstream_st readout true =
      (hits_from_readoutstream readout true, readout) ∧
    hits_from_readoutstream readout true =
      (hitsLoop 0xbc false readout).map reverse_bitorder := by
  constructor
  · exact hitsLoopSt_eq_aux 0xbc true readout.length readout readout (le_refl _)
  · exact hitsLoop_map_rev_aux 0xbc readout.length readout (le_refl _)

end AstroPix
